import Mathlib

/-!
Shallow embedding of the core of the cs3210 kernel (bin allocator, scheduler,
syscall layer, user page tables) together with proofs of its specified
properties.  Machine integers are modelled as `Nat`; `% 2 ^ 64` appears
explicitly where wrap-around matters.  Fallible code and assertions are
modelled with `Option` (`none` = panic / assertion failure).
-/

namespace Kern

/-! ## Bin allocator (src/kern/src/allocator/bin.rs) -/

/-- `MAX_BINS` from bin.rs. -/
def MAX_BINS : Nat := 32

/-- The loop of `map_to_bin`: `while size > (0x1 << b) { b += 1 }`, returning
the final `b`.  Starts at `b = 3` in `map_to_bin`. -/
def mapToBinFrom (size : Nat) (b : Nat) : Nat :=
  if 2 ^ b < size then mapToBinFrom size (b + 1) else b
termination_by size + 1 - 2 ^ b
decreasing_by
  have h1 : 2 ^ b < 2 ^ (b + 1) := Nat.pow_lt_pow_succ (by norm_num)
  omega

/-- `map_to_bin(size)` from bin.rs: the size class of `size`. -/
def map_to_bin (size : Nat) : Nat := mapToBinFrom size 3 - 3

/-- `size_for_bin(bin)` from bin.rs: `0x1 << (3 + bin)`. -/
def size_for_bin (bin : Nat) : Nat := 2 ^ (3 + bin)

/-- `power_of_two(n)` from bin.rs: `(n & (n - 1)) == 0`. -/
def power_of_two (n : Nat) : Bool := n &&& (n - 1) == 0

/-- `align_up` from the allocator utilities.  Modelled from the spec: the
source file `allocator/util.rs` is not in the provided sources; the spec says
`alloc` "aligns `current` up to `align`", i.e. rounds up to the next multiple
of `align`. -/
def align_up (n a : Nat) : Nat := (n + a - 1) / a * a

/-- The state of the bin allocator (struct `Allocator` in bin.rs).  The 32
free lists are a function from bin index to the list of node addresses, the
head being the most recently pushed node; `end` is `end_` (`end` is reserved
in Lean).  The intrusive `LinkedList` is modelled from the spec as a list of
addresses: `push` prepends, iteration is front to back, `pop` on a node
unlinks it. -/
structure Allocator where
  bins : Nat → List Nat
  current : Nat
  end_ : Nat

/-- The free-list scan in `alloc`: find the first node whose address is a
multiple of `align`; return its value and the list with that node unlinked. -/
def scanBin (align : Nat) : List Nat → Option (Nat × List Nat)
  | [] => none
  | x :: xs =>
    if x % align = 0 then some (x, xs)
    else
      match scanBin align xs with
      | some (v, rest) => some (v, x :: rest)
      | none => none

/-- `Allocator::alloc(layout)` from bin.rs.  Outer `none` models the
`assert!(power_of_two(layout.align()))` panic; the inner `Option Nat` is the
returned pointer (`none` = null). -/
def Allocator.alloc (s : Allocator) (size align : Nat) :
    Option (Option Nat × Allocator) :=
  if power_of_two align then
    let bin := map_to_bin (max size align)
    if MAX_BINS ≤ bin then some (none, s)
    else
      match scanBin align (s.bins bin) with
      | some (addr, rest) =>
          some (some addr,
            { s with bins := fun i => if i = bin then rest else s.bins i })
      | none =>
          let allocSize := size_for_bin bin
          let start := align_up s.current align
          if s.end_ < start + allocSize then some (none, s)
          else some (some start, { s with current := start + allocSize })
  else none

/-- `Allocator::dealloc(ptr, layout)` from bin.rs.  `none` models a failed
assertion (`power_of_two` or `bin < MAX_BINS`). -/
def Allocator.dealloc (s : Allocator) (ptr size align : Nat) :
    Option Allocator :=
  if power_of_two align then
    let bin := map_to_bin (max size align)
    if bin < MAX_BINS then
      some { s with
        bins := fun i => if i = bin then ptr :: s.bins i else s.bins i }
    else none
  else none

/-! ### Allocator invariant -/

/-- Two byte regions `[a, a + sa)` and `[b, b + sb)` do not overlap. -/
def disj (a sa b sb : Nat) : Prop := a + sa ≤ b ∨ b + sb ≤ a

/-- Disjointness of the class-sized blocks denoted by `(address, bin)`
pairs. -/
def blockDisj (p q : Nat × Nat) : Prop :=
  disj p.1 (size_for_bin p.2) q.1 (size_for_bin q.2)

/-- All free-list nodes of an allocator, tagged with their bin: node `a` on
free list `k` denotes the block `[a, a + 2 ^ (k + 3))`. -/
def binBlocks (s : Allocator) : List (Nat × Nat) :=
  (List.range MAX_BINS).flatMap fun k => (s.bins k).map fun a => (a, k)

/-- The allocator invariant relating an allocator to the list `live` of
currently live allocations `(address, bin)`: every live block and every
free-list node lies below the high-water mark `current`, and all such blocks
are pairwise disjoint. -/
def AllocInv (s : Allocator) (live : List (Nat × Nat)) : Prop :=
  (∀ p ∈ live ++ binBlocks s, p.1 + size_for_bin p.2 ≤ s.current) ∧
  (live ++ binBlocks s).Pairwise blockDisj

/-- The specified behaviour of one `alloc` call on allocator `s` with live
blocks `live`: null when the class is 32 or more; null when the free-list
scan fails and the bump reservation would exceed `end`; and any non-null
result is `align`-aligned, its class-sized region overlaps neither a live
block nor a node left on any free list, and the allocator invariant is
preserved with the new block live. -/
def AllocCorrect (s : Allocator) (live : List (Nat × Nat))
    (size align : Nat) : Prop :=
  (MAX_BINS ≤ map_to_bin (max size align) → s.alloc size align = some (none, s)) ∧
  (scanBin align (s.bins (map_to_bin (max size align))) = none →
    s.end_ < align_up s.current align + size_for_bin (map_to_bin (max size align)) →
    s.alloc size align = some (none, s)) ∧
  (∀ a s2, s.alloc size align = some (some a, s2) →
    a % align = 0 ∧
    (∀ p ∈ live,
      disj a (size_for_bin (map_to_bin (max size align))) p.1 (size_for_bin p.2)) ∧
    (∀ p ∈ binBlocks s2,
      disj a (size_for_bin (map_to_bin (max size align))) p.1 (size_for_bin p.2)) ∧
    AllocInv s2 ((a, map_to_bin (max size align)) :: live))

/-- A concrete allocator over the region `[64, 4096)` with empty free lists,
used to instantiate theorems. -/
def allocSample : Allocator := ⟨fun _ => [], 64, 4096⟩

/-! ## Trap frame and processes
(src/kern/src/traps/frame.rs, src/kern/src/process/process.rs) -/

/-- `TrapFrame` from frame.rs: `ttbr[2], elr, spsr, sp, tpidr, qregs[32],
xregs[32]`. -/
structure TrapFrame where
  ttbr0 : Nat
  ttbr1 : Nat
  elr : Nat
  spsr : Nat
  sp : Nat
  tpidr : Nat
  qregs : List Nat
  xregs : List Nat
deriving DecidableEq

/-- The zeroed default trap frame. -/
def TrapFrame.default : TrapFrame :=
  ⟨0, 0, 0, 0, 0, 0, List.replicate 32 0, List.replicate 32 0⟩

/-- `OsError::Ok as u64`.  Modelled from the spec: the `kernel_api` crate
root defining `OsError` is not in the provided sources; the spec says
`x7 = 0` on success. -/
def osErrorOk : Nat := 0

/-- Scheduling state of a process (`State` in process/state.rs, which is not
in the provided sources; its variants are fixed by the spec and by the
pattern matches in process.rs and scheduler.rs).  The only wait predicate the
kernel ever creates is the `sys_sleep` closure capturing `(start, end)`, so
`Waiting` is defunctionalised to those two captured millisecond values. -/
inductive State where
  | Ready : State
  | Running : State
  | Waiting (start ends : Nat) : State
  | Dead : State
deriving DecidableEq

/-- `Process` from process.rs, restricted to the fields the scheduler
touches. -/
structure Process where
  context : TrapFrame
  state : State
deriving DecidableEq

/-- `Process::is_ready` from process.rs, with the current time (in
milliseconds, from `pi::timer::current_time`) passed explicitly.  The state
is temporarily replaced by `Ready`; for `Waiting` the sleep predicate from
`sys_sleep` runs: if `now >= end` it stores `(now - start).as_millis() as
u64` into `x0` and `OsError::Ok` into `x7` and leaves the state `Ready`,
otherwise the original state is restored unchanged. -/
def isReady (now : Nat) (p : Process) : Bool × Process :=
  match p.state with
  | State.Ready => (true, p)
  | State.Waiting start ends =>
      if ends ≤ now then
        (true,
          { p with
            state := State.Ready,
            context :=
              { p.context with
                xregs :=
                  ((p.context.xregs.set 0 ((now - start) % 2 ^ 64)).set 7
                    osErrorOk) } })
      else (false, p)
  | State.Running => (false, p)
  | State.Dead => (false, p)

/-! ## Scheduler (src/kern/src/process/scheduler.rs) -/

/-- `u64::MAX`. -/
def U64_MAX : Nat := 2 ^ 64 - 1

/-- `Scheduler` from scheduler.rs: a queue of processes (front first) and the
`last_id` counter. -/
structure Scheduler where
  processes : List Process
  last_id : Option Nat

/-- `Scheduler::new()`. -/
def Scheduler.new : Scheduler := ⟨[], none⟩

/-- `Scheduler::add` from scheduler.rs: `last_id` becomes `Some(1)` from
`None`, otherwise `lid.checked_add(1)`; the `?` operator then returns `none`
without enqueueing when the new `last_id` is `None`; otherwise the id is
written into the process's `tpidr` and the process appended at the back. -/
def Scheduler.add (s : Scheduler) (p : Process) : Option Nat × Scheduler :=
  let newLast : Option Nat :=
    match s.last_id with
    | none => some 1
    | some lid => if lid = U64_MAX then none else some (lid + 1)
  match newLast with
  | none => (none, { s with last_id := none })
  | some id =>
      (some id,
        { processes :=
            s.processes ++ [{ p with context := { p.context with tpidr := id } }],
          last_id := some id })

/-- The `position`/`remove` pair in `schedule_out`: split the queue at the
first process whose stored `tpidr` equals the given one. -/
def splitAtTpidr (t : Nat) : List Process →
    Option (List Process × Process × List Process)
  | [] => none
  | p :: ps =>
    if p.context.tpidr = t then some ([], p, ps)
    else
      match splitAtTpidr t ps with
      | some (l, q, r) => some (p :: l, q, r)
      | none => none

/-- `Scheduler::schedule_out` from scheduler.rs: remove the first process
matching `tf.tpidr`, set its state to `new_state`, overwrite its stored
context with `tf`, and push it to the back.  Returns `false` and leaves the
queue unchanged when no process matches. -/
def Scheduler.schedule_out (s : Scheduler) (new_state : State)
    (tf : TrapFrame) : Bool × Scheduler :=
  match splitAtTpidr tf.tpidr s.processes with
  | some (pre, q, post) =>
      (true,
        { s with
          processes := pre ++ post ++ [{ q with state := new_state, context := tf }] })
  | none => (false, s)

/-- The `position(|p| p.is_ready())` scan of `switch_to`: the scanned
not-ready prefix (with any `is_ready` mutations applied, which restore the
process unchanged) together with the found ready process (mutated by its
predicate) and the remaining suffix. -/
def scanReady (now : Nat) : List Process →
    List Process × Option (Process × List Process)
  | [] => ([], none)
  | p :: ps =>
    let r := isReady now p
    if r.1 then ([], some (r.2, ps))
    else
      let rest := scanReady now ps
      (r.2 :: rest.1, rest.2)

/-- `Scheduler::switch_to` from scheduler.rs, with the current time passed
explicitly for the wait predicates.  Finds the first ready process, marks it
`Running`, moves it to the front, restores its stored context into `tf` and
returns `Some(tf.tpidr)`; returns `None` with `tf` unchanged when no process
is ready.  The result is `(returned id, tf after the call, scheduler
after)`. -/
def Scheduler.switch_to (s : Scheduler) (now : Nat) (tf : TrapFrame) :
    Option Nat × TrapFrame × Scheduler :=
  match scanReady now s.processes with
  | (pre, none) => (none, tf, { s with processes := pre })
  | (pre, some (q, post)) =>
      let q2 := { q with state := State.Running }
      (some q2.context.tpidr, q2.context,
        { s with processes := q2 :: (pre ++ post) })

/-- `Scheduler::kill` from scheduler.rs: schedule the current process out as
`Dead`, then `pop_back` it (the dead process was just pushed to the back) and
return its id. -/
def Scheduler.kill (s : Scheduler) (tf : TrapFrame) : Option Nat × Scheduler :=
  match s.schedule_out State.Dead tf with
  | (true, s1) =>
      match s1.processes with
      | [] => (none, s1)
      | _ :: _ => (some tf.tpidr, { s1 with processes := s1.processes.dropLast })
  | (false, s1) => (none, s1)

/-- One round of `GlobalScheduler::switch`: `schedule_out(new_state, tf)`
followed by one `switch_to(tf)` attempt (the enclosing loop retries
`switch_to` unchanged after `wfi`). -/
def Scheduler.switch (s : Scheduler) (new_state : State) (now : Nat)
    (tf : TrapFrame) : Option Nat × TrapFrame × Scheduler :=
  (s.schedule_out new_state tf).2.switch_to now tf

/-! ## Syscall layer (src/kern/src/traps/syscall.rs) -/

/-- `sys_sleep(ms, tf)` from syscall.rs: read the current time, build the
wait closure capturing `(start, end = start + ms)`, and call
`SCHEDULER.switch(Waiting(..), tf)`. -/
def sys_sleep (now ms : Nat) (tf : TrapFrame) (s : Scheduler) :
    Option Nat × TrapFrame × Scheduler :=
  let start := now
  let ends := start + ms
  s.switch (State.Waiting start ends) now tf

/-- Syscall numbers.  Modelled from the spec: the `kernel_api` crate root
defining `NR_SLEEP` .. `NR_WRITE` is not in the provided sources; the spec's
syscall ABI section gives sleep=1, exit=2, time=3, getpid=4, write=5. -/
def NR_SLEEP : Nat := 1

/-- Syscall number of `exit` (see `NR_SLEEP`). -/
def NR_EXIT : Nat := 2

/-- Syscall number of `time` (see `NR_SLEEP`). -/
def NR_TIME : Nat := 3

/-- Syscall number of `getpid` (see `NR_SLEEP`). -/
def NR_GETPID : Nat := 4

/-- Syscall number of `write` (see `NR_SLEEP`). -/
def NR_WRITE : Nat := 5

/-- `sys_time` from syscall.rs: store seconds into `x0`, the nanosecond
remainder into `x1` and `Ok` into `x7` (current time modelled in
milliseconds). -/
def sys_time (now : Nat) (tf : TrapFrame) : TrapFrame :=
  { tf with
    xregs :=
      ((tf.xregs.set 0 (now / 1000)).set 1 (now % 1000 * 1000000)).set 7
        osErrorOk }

/-- `sys_exit` from syscall.rs: kill the current process (the failed-kill
branch only logs). -/
def sys_exit (tf : TrapFrame) (s : Scheduler) : TrapFrame × Scheduler :=
  (tf, (s.kill tf).2)

/-- `sys_write` from syscall.rs: emit a CR before LF, then the byte; set
`x7` to `Ok`.  The console output is returned as a byte list. -/
def sys_write (b : Nat) (tf : TrapFrame) : TrapFrame × List Nat :=
  ({ tf with xregs := tf.xregs.set 7 osErrorOk },
    if b = 10 then [13, 10] else [b])

/-- `sys_getpid` from syscall.rs: store `tpidr` into `x0` and `Ok` into
`x7`. -/
def sys_getpid (tf : TrapFrame) : TrapFrame :=
  { tf with xregs := (tf.xregs.set 0 tf.tpidr).set 7 osErrorOk }

/-- `handle_syscall(num, tf)` from syscall.rs.  The result is `none` exactly
when the code panics: the wildcard arm executes
`unimplemented!("syscall not yet implemented")`.  On normal termination the
result carries the updated trap frame, scheduler and console output. -/
def handle_syscall (num : Nat) (now : Nat) (tf : TrapFrame) (s : Scheduler) :
    Option (TrapFrame × Scheduler × List Nat) :=
  if num = NR_SLEEP then
    let r := sys_sleep now (tf.xregs.getD 0 0 % 2 ^ 32) tf s
    some (r.2.1, r.2.2, [])
  else if num = NR_EXIT then
    let r := sys_exit tf s
    some (r.1, r.2, [])
  else if num = NR_TIME then some (sys_time now tf, s, [])
  else if num = NR_GETPID then some (sys_getpid tf, s, [])
  else if num = NR_WRITE then
    let r := sys_write (tf.xregs.getD 0 0 % 2 ^ 8) tf
    some (r.1, s, r.2)
  else none

/-! ## Page tables (src/kern/src/vm/pagetable.rs)

The 64-bit L3 descriptors and their bit fields follow `RawL3Entry` from the
`aarch64` crate's vmsa.rs, which is not in the provided sources; the layout is
modelled from the spec ("64-bit descriptor carrying valid, type=page, AF,
access permissions, attribute index, shareability, physical address bits
[47:16]") and the ARMv8 VMSA: VALID bit 0, TYPE bit 1, ATTR bits [4:2],
AP bits [7:6], SH bits [9:8], AF bit 10, ADDR bits [47:16]; values
USER_RW = 0b01, Normal = 0, Inner = 0b11.  `PAGE_SIZE`, `USER_IMG_BASE` and
`USER_IMG_MASK` come from param.rs, also not in the provided sources:
64 KiB pages and a 1 GiB user window based at `0xffff_ffff_c000_0000`. -/

/-- 64 KiB page size (param.rs, modelled from the spec). -/
def PAGE_SIZE : Nat := 65536

/-- Base of the user address window (param.rs, modelled from the spec). -/
def USER_IMG_BASE : Nat := 0xffffffffc0000000

/-- Mask selecting the offset within the 1 GiB user window (param.rs,
modelled from the spec). -/
def USER_IMG_MASK : Nat := 0x3fffffff

/-- Read the `width`-bit field at bit offset `off` of descriptor `d`
(`get_value` in the register layer). -/
def getBits (d off width : Nat) : Nat := d / 2 ^ off % 2 ^ width

/-- Replace the `width`-bit field at bit offset `off` of descriptor `d` with
`v` (`set_value`/`set_bit`/`set_masked` in the register layer). -/
def setBits (d v off width : Nat) : Nat :=
  d / 2 ^ (off + width) * 2 ^ (off + width) + v % 2 ^ width * 2 ^ off +
    d % 2 ^ off

/-- `L3Entry::is_valid`: `get_masked(VALID) != 0`. -/
def entryValid (d : Nat) : Bool := getBits d 0 1 != 0

/-- The page address stored in a valid L3 entry: `get_masked(ADDR)` keeps
bits [47:16] in place. -/
def entryAddr (d : Nat) : Nat := d / 2 ^ 16 % 2 ^ 32 * 2 ^ 16

/-- `EntryPerm::USER_RW` (vmsa.rs, modelled from the spec). -/
def USER_RW : Nat := 1

/-- `EntryAttr::Normal` memory attribute index (vmsa.rs, modelled from the
spec). -/
def ATTR_NORMAL : Nat := 0

/-- `EntrySh::Inner` shareability (vmsa.rs, modelled from the spec). -/
def SH_INNER : Nat := 3

/-- The L3 descriptor written by `UserPageTable::alloc`: starting from 0 it
sets AF, TYPE = Page, VALID, AP = USER_RW, ATTR = Normal, SH = Inner in the
source's order, then `set_masked(ptr, ADDR)`. -/
def mkUserL3Entry (ptr : Nat) : Nat :=
  setBits
    (setBits
      (setBits
        (setBits
          (setBits
            (setBits
              (setBits 0 1 10 1)
              1 1 1)
            1 0 1)
          USER_RW 6 2)
        ATTR_NORMAL 2 3)
      SH_INNER 8 2)
    (ptr / 2 ^ 16) 16 32

/-- `PageTable::locate(va)` from pagetable.rs: panics (`none`) when `va` is
not 64 KiB-aligned or the L2 index is not below 2; user-window addresses are
masked with `USER_IMG_MASK` first; the L2 index is bits [41:29] and the L3
index bits [28:16]. -/
def locate (va : Nat) : Option (Nat × Nat) :=
  if va % PAGE_SIZE ≠ 0 then none
  else
    let va2 := if USER_IMG_BASE ≤ va then va &&& USER_IMG_MASK else va
    let l2idx := getBits va2 29 13
    let l3idx := getBits va2 16 13
    if l2idx < 2 then some (l2idx, l3idx) else none

/-- A `UserPageTable`, restricted to its L3 descriptors: `l3 i j` is the raw
entry of table `i < 2` at index `j < 8192`.  `UserPageTable::new` zeroes all
entries. -/
structure UserPageTable where
  l3 : Nat → Nat → Nat

/-- `UserPageTable::new()`: all L3 entries zero (invalid). -/
def UserPageTable.new : UserPageTable := ⟨fun _ _ => 0⟩

/-- `PagePerm` from pagetable.rs. -/
inductive PagePerm where
  | RW : PagePerm
  | RO : PagePerm
  | RWX : PagePerm

/-- Combined state for the user page table and the kernel heap it draws
pages from, with two ghost fields: `live` is the list of currently live heap
blocks (for the allocator invariant) and `returned` records every address
the bin allocator ever returned. -/
structure VMState where
  upt : UserPageTable
  heap : Allocator
  live : List (Nat × Nat)
  returned : List Nat

/-- `UserPageTable::alloc(va, _perm)` from pagetable.rs acting on a
`VMState`.  `none` models a panic: `assert!(va >= USER_IMG_BASE)`, the
`locate` asserts, `assert!(!l3entry.is_valid())`, or
`assert!(!ptr.is_null())`.  Otherwise one 64 KiB page is taken from the bin
allocator with `Page::layout()` = (PAGE_SIZE, PAGE_SIZE) and the L3 entry is
set to the user descriptor for it.  The `perm` parameter is `_perm` in the
source: it is never read. -/
def uptAlloc (vs : VMState) (va : Nat) (_perm : PagePerm) : Option VMState :=
  if va < USER_IMG_BASE then none
  else
    match locate va with
    | none => none
    | some (i, j) =>
      if entryValid (vs.upt.l3 i j) then none
      else
        match vs.heap.alloc PAGE_SIZE PAGE_SIZE with
        | none => none
        | some (none, _) => none
        | some (some ptr, heap2) =>
          if ptr = 0 then none
          else
            some
              { upt :=
                  ⟨fun a b =>
                    if a = i ∧ b = j then mkUserL3Entry ptr else vs.upt.l3 a b⟩,
                heap := heap2,
                live := (ptr, map_to_bin (max PAGE_SIZE PAGE_SIZE)) :: vs.live,
                returned := ptr :: vs.returned }

/-- The dealloc calls `impl Drop for UserPageTable` issues for one L3 table:
walk indices 0..8192 in order and for each valid entry dealloc
`(page address, Page::layout())`.  Each element is
(address, (size, align)). -/
def tableDeallocs (u : UserPageTable) (i : Nat) : List (Nat × Nat × Nat) :=
  (List.range 8192).filterMap fun j =>
    if entryValid (u.l3 i j) then
      some (entryAddr (u.l3 i j), (PAGE_SIZE, PAGE_SIZE))
    else none

/-- All dealloc calls of `impl Drop for UserPageTable`: both L3 tables in
order. -/
def dropDeallocs (u : UserPageTable) : List (Nat × Nat × Nat) :=
  tableDeallocs u 0 ++ tableDeallocs u 1

/-- Invariant tying a user page table to the heap: the heap invariant holds,
the heap stays within a 2^48 physical address space, and every valid L3
entry stores a 64 KiB-aligned page address below 2^48 that is a currently
live class-13 heap block and was returned by the allocator; distinct valid
entries store distinct pages. -/
def UPTInv (vs : VMState) : Prop :=
  AllocInv vs.heap vs.live ∧
  vs.heap.current ≤ vs.heap.end_ ∧ vs.heap.end_ ≤ 2 ^ 48 ∧
  (∀ i j, i < 2 → j < 8192 → entryValid (vs.upt.l3 i j) = true →
    entryAddr (vs.upt.l3 i j) % PAGE_SIZE = 0 ∧
    entryAddr (vs.upt.l3 i j) ∈ vs.returned ∧
    (entryAddr (vs.upt.l3 i j), 13) ∈ vs.live) ∧
  (∀ i j i2 j2, i < 2 → j < 8192 → i2 < 2 → j2 < 8192 →
    entryValid (vs.upt.l3 i j) = true → entryValid (vs.upt.l3 i2 j2) = true →
    (i, j) ≠ (i2, j2) →
    entryAddr (vs.upt.l3 i j) ≠ entryAddr (vs.upt.l3 i2 j2))

/-- States reachable for a user page table: start from a fresh
`UserPageTable::new` over any heap satisfying the allocator invariant and
within the 2^48 physical space, then interleave `UserPageTable::alloc` calls
with heap allocations made by other kernel code. -/
inductive VMReach : VMState → Prop where
  | init (heap : Allocator) (live : List (Nat × Nat)) (returned : List Nat) :
      AllocInv heap live → heap.current ≤ heap.end_ → heap.end_ ≤ 2 ^ 48 →
      VMReach ⟨UserPageTable.new, heap, live, returned⟩
  | step (vs : VMState) (va : Nat) (perm : PagePerm) (vs2 : VMState) :
      VMReach vs → uptAlloc vs va perm = some vs2 → VMReach vs2
  | extAlloc (vs : VMState) (size align a : Nat) (heap2 : Allocator)
      (j : Nat) :
      VMReach vs → align = 2 ^ j → 0 < size →
      vs.heap.alloc size align = some (some a, heap2) →
      VMReach ⟨vs.upt, heap2, (a, map_to_bin (max size align)) :: vs.live,
        a :: vs.returned⟩

/-- The specified behaviour of `UserPageTable`'s `Drop` on a page table
state: the dealloc calls are exactly one per valid L3 entry, with no page
deallocated twice, every deallocated page is 64 KiB-aligned, was returned
by the bin allocator, and is deallocated at the 64 KiB page layout. -/
def UPTDropSpec (vs : VMState) : Prop :=
  ((dropDeallocs vs.upt).map Prod.fst).Nodup ∧
  (∀ x, x ∈ dropDeallocs vs.upt ↔
    ∃ i j, i < 2 ∧ j < 8192 ∧ entryValid (vs.upt.l3 i j) = true ∧
      x = (entryAddr (vs.upt.l3 i j), (PAGE_SIZE, PAGE_SIZE))) ∧
  (∀ x ∈ dropDeallocs vs.upt,
    x.1 % PAGE_SIZE = 0 ∧ x.1 ∈ vs.returned ∧ x.2 = (PAGE_SIZE, PAGE_SIZE))

/-- A concrete fresh page-table state over a heap `[65536, 2^32)` with empty
free lists. -/
def vmSample : VMState :=
  ⟨UserPageTable.new, ⟨fun _ => [], 65536, 2 ^ 32⟩, [], []⟩

/-- The page-table state after mapping the first user page (at
`USER_IMG_BASE`) in `vmSample`. -/
def vmSampleAfter : VMState :=
  ⟨⟨fun a b =>
      if a = 0 ∧ b = 0 then mkUserL3Entry 65536 else vmSample.upt.l3 a b⟩,
    ⟨fun _ => [], 131072, 2 ^ 32⟩,
    [(65536, map_to_bin (max PAGE_SIZE PAGE_SIZE))], [65536]⟩

/-! ## Scheduler reachability (for the Running-count invariant) -/

/-- Number of processes in state `Running` in a queue. -/
def countRunning (l : List Process) : Nat :=
  l.countP fun p => p.state == State.Running

/-- Scheduler states reachable through the kernel's use of the scheduler:
starting from `Scheduler::new`, processes are added in state `Ready`
(`Process::new`/`Process::load` create `Ready` processes), `schedule_out` is
called with a non-`Running` target state (its callers pass `Ready`,
`Waiting` or `Dead`), and `switch_to` is invoked only when no process is
`Running` (in the kernel it always follows a `schedule_out` that demoted the
running process, or retries on an unchanged queue). -/
inductive SchedReach : Scheduler → Prop where
  | init : SchedReach Scheduler.new
  | add (s : Scheduler) (p : Process) :
      SchedReach s → p.state = State.Ready → SchedReach (s.add p).2
  | schedOut (s : Scheduler) (ns : State) (tf : TrapFrame) :
      SchedReach s → ns ≠ State.Running →
      SchedReach (s.schedule_out ns tf).2
  | switchTo (s : Scheduler) (now : Nat) (tf : TrapFrame) :
      SchedReach s → countRunning s.processes = 0 →
      SchedReach (s.switch_to now tf).2.2
  | kill (s : Scheduler) (tf : TrapFrame) :
      SchedReach s → SchedReach (s.kill tf).2

/-! ## Repeated `add` calls (for the id-uniqueness claim) -/

/-- A process as handed to `Scheduler::add`. -/
def freshProcess : Process := ⟨TrapFrame.default, State.Ready⟩

/-- The scheduler after `n` successive `Scheduler::add` calls starting from
`Scheduler::new`. -/
def addN : Nat → Scheduler
  | 0 => Scheduler.new
  | n + 1 => ((addN n).add freshProcess).2

/-- Number of queued processes whose `tpidr` equals `t`. -/
def countTpidr (t : Nat) (l : List Process) : Nat :=
  l.countP fun p => p.context.tpidr == t

/-- The specified behaviour of `sys_sleep(ms, tf)` called at time `now` (in
milliseconds) on a scheduler whose queue splits at `tf.tpidr`: the call is
`switch` on the scheduler with the caller re-enqueued at the back in state
`Waiting(start = now, end = now + ms)`; the wait predicate returns true
exactly when the current time has reached `now + ms`; and when it fires it
moves the process to `Ready` with the true elapsed milliseconds (at least
`ms`) in `x0`, the Ok status in `x7` and every other register
undisturbed. -/
def SysSleepSpec (now ms : Nat) (tf : TrapFrame) (s : Scheduler)
    (pre post : List Process) : Prop :=
  (sys_sleep now ms tf s =
    Scheduler.switch_to
      ⟨pre ++ post ++ [⟨tf, State.Waiting now (now + ms)⟩], s.last_id⟩
      now tf) ∧
  (∀ now2, (isReady now2 ⟨tf, State.Waiting now (now + ms)⟩).1 = true ↔
    now + ms ≤ now2) ∧
  (∀ now2, now + ms ≤ now2 → now2 - now < 2 ^ 64 →
    ∃ p2, isReady now2 ⟨tf, State.Waiting now (now + ms)⟩ = (true, p2) ∧
      p2.state = State.Ready ∧
      p2.context.xregs.getD 0 0 = now2 - now ∧
      ms ≤ p2.context.xregs.getD 0 0 ∧
      p2.context.xregs.getD 7 0 = osErrorOk ∧
      p2.context.tpidr = tf.tpidr ∧ p2.context.elr = tf.elr ∧
      p2.context.sp = tf.sp ∧ p2.context.spsr = tf.spsr)

/-! ## Helper lemmas -/

theorem isReady_false_eq (now : Nat) (p : Process)
    (h : (isReady now p).1 = false) : isReady now p = (false, p) := by
  unfold isReady at *
  cases hs : p.state with
  | Ready => simp [hs] at h
  | Running => simp [hs]
  | Dead => simp [hs]
  | Waiting st en =>
    simp only [hs] at h ⊢
    by_cases hle : en ≤ now
    · simp [hle] at h
    · simp [hle]

theorem scanReady_none_eq (now : Nat) :
    ∀ l pre, scanReady now l = (pre, none) → pre = l := by
  intro l
  induction l with
  | nil =>
    intro pre h
    unfold scanReady at h
    injection h with h1 h2
    exact h1.symm
  | cons p ps ih =>
    intro pre h
    unfold scanReady at h
    simp only [] at h
    split at h
    · injection h with h1 h2
      simp at h2
    · injection h with h1 h2
      rename_i hr
      have hp : (isReady now p).2 = p := by
        rw [isReady_false_eq now p (by simpa using hr)]
      rw [← h1, hp, ih (scanReady now ps).1 (by
        have heta : scanReady now ps = ((scanReady now ps).1, (scanReady now ps).2) := rfl
        rw [heta, h2])]

theorem scanReady_some_eq (now : Nat) :
    ∀ l pre q post, scanReady now l = (pre, some (q, post)) →
      ∃ q0, l = pre ++ q0 :: post ∧ isReady now q0 = (true, q) := by
  intro l
  induction l with
  | nil =>
    intro pre q post h
    unfold scanReady at h
    injection h with h1 h2
    simp at h2
  | cons p ps ih =>
    intro pre q post h
    unfold scanReady at h
    simp only [] at h
    split at h
    · rename_i hr
      injection h with h1 h2
      injection h2 with h2
      injection h2 with h2a h2b
      refine ⟨p, ?_, ?_⟩
      · rw [← h1, h2b]
        simp
      · have heta : isReady now p = ((isReady now p).1, (isReady now p).2) := rfl
        rw [heta, hr, h2a]
    · rename_i hr
      injection h with h1 h2
      have hp : (isReady now p).2 = p := by
        rw [isReady_false_eq now p (by simpa using hr)]
      obtain ⟨q0, hl, hq0⟩ := ih (scanReady now ps).1 q post (by
        have heta : scanReady now ps = ((scanReady now ps).1, (scanReady now ps).2) := rfl
        rw [heta, h2])
      refine ⟨q0, ?_, hq0⟩
      rw [← h1, hp]
      simp only [List.cons_append]
      exact congrArg (p :: ·) hl

theorem splitAtTpidr_eq (t : Nat) :
    ∀ l pre q post, splitAtTpidr t l = some (pre, q, post) →
      l = pre ++ q :: post ∧ q.context.tpidr = t := by
  intro l
  induction l with
  | nil =>
    intro pre q post h
    simp [splitAtTpidr] at h
  | cons p ps ih =>
    intro pre q post h
    unfold splitAtTpidr at h
    split at h
    · rename_i ht
      injection h with h
      injection h with h1 h2
      injection h2 with h2a h2b
      constructor
      · rw [← h1, ← h2a, ← h2b]
        simp
      · rw [← h2a]; exact ht
    · rename_i ht
      split at h
      · rename_i l1 q1 r1 hsp
        injection h with h
        injection h with h1 h2
        injection h2 with h2a h2b
        obtain ⟨hl, hqt⟩ := ih l1 q1 r1 hsp
        constructor
        · rw [← h1]
          simp only [List.cons_append]
          rw [← h2a, ← h2b]
          exact congrArg (p :: ·) hl
        · rw [← h2a]; exact hqt
      · exact absurd h (by simp)

theorem switch_to_of_scan_none (s : Scheduler) (now : Nat) (tf : TrapFrame)
    (pre : List Process) (h : scanReady now s.processes = (pre, none)) :
    s.switch_to now tf = (none, tf, { s with processes := pre }) := by
  unfold Scheduler.switch_to
  rw [h]

theorem switch_to_of_scan_some (s : Scheduler) (now : Nat) (tf : TrapFrame)
    (pre post : List Process) (q : Process)
    (h : scanReady now s.processes = (pre, some (q, post))) :
    s.switch_to now tf =
      (some q.context.tpidr, q.context,
        { s with processes := { q with state := State.Running } :: (pre ++ post) }) := by
  unfold Scheduler.switch_to
  rw [h]

theorem schedule_out_of_split_some (s : Scheduler) (ns : State)
    (tf : TrapFrame) (pre post : List Process) (q : Process)
    (h : splitAtTpidr tf.tpidr s.processes = some (pre, q, post)) :
    s.schedule_out ns tf =
      (true,
        { s with
          processes := pre ++ post ++ [{ q with state := ns, context := tf }] }) := by
  unfold Scheduler.schedule_out
  rw [h]

theorem schedule_out_of_split_none (s : Scheduler) (ns : State)
    (tf : TrapFrame) (h : splitAtTpidr tf.tpidr s.processes = none) :
    s.schedule_out ns tf = (false, s) := by
  unfold Scheduler.schedule_out
  rw [h]

theorem add_of_last_id_none (s : Scheduler) (p : Process)
    (h : s.last_id = none) :
    s.add p =
      (some 1,
        { processes :=
            s.processes ++ [{ p with context := { p.context with tpidr := 1 } }],
          last_id := some 1 }) := by
  unfold Scheduler.add
  rw [h]

theorem add_of_last_id_some (s : Scheduler) (p : Process) (lid : Nat)
    (h : s.last_id = some lid) (h2 : lid ≠ U64_MAX) :
    s.add p =
      (some (lid + 1),
        { processes :=
            s.processes ++
              [{ p with context := { p.context with tpidr := lid + 1 } }],
          last_id := some (lid + 1) }) := by
  unfold Scheduler.add
  rw [h]
  simp only [if_neg h2]

theorem add_of_last_id_max (s : Scheduler) (p : Process)
    (h : s.last_id = some U64_MAX) :
    s.add p = (none, { s with last_id := none }) := by
  unfold Scheduler.add
  rw [h]
  simp

theorem kill_of_split_some (s : Scheduler) (tf : TrapFrame)
    (pre post : List Process) (q : Process)
    (h : splitAtTpidr tf.tpidr s.processes = some (pre, q, post)) :
    s.kill tf = (some tf.tpidr, { s with processes := pre ++ post }) := by
  unfold Scheduler.kill
  rw [schedule_out_of_split_some s State.Dead tf pre post q h]
  rcases hE : pre ++ post with _ | ⟨a, as⟩
  · rfl
  · set qd : Process := { q with state := State.Dead, context := tf } with hqd
    change (some tf.tpidr,
        ({ processes := ((a :: as) ++ [qd]).dropLast,
           last_id := s.last_id } : Scheduler)) =
      (some tf.tpidr, { s with processes := a :: as })
    rw [List.dropLast_concat]

theorem kill_of_split_none (s : Scheduler) (tf : TrapFrame)
    (h : splitAtTpidr tf.tpidr s.processes = none) :
    s.kill tf = (none, s) := by
  unfold Scheduler.kill
  rw [schedule_out_of_split_none s State.Dead tf h]

/-! ## Claim C7: schedule_out/switch_to round trip -/

/-- Claim C7: on a scheduler holding exactly one process whose stored tpidr
equals `tf.tpidr`, `schedule_out(Ready, tf)` succeeds, and the following
`switch_to(tf)` returns the same pid `tf.tpidr` and leaves `tf` equal, field
for field, to its value before the pair of calls. -/
theorem schedule_out_then_switch_to_roundtrip (s : Scheduler) (p : Process)
    (tf : TrapFrame) (now : Nat)
    (h1 : s.processes = [p]) (h2 : p.context.tpidr = tf.tpidr) :
    (s.schedule_out State.Ready tf).1 = true ∧
    (((s.schedule_out State.Ready tf).2.switch_to now tf).1 = some tf.tpidr ∧
      ((s.schedule_out State.Ready tf).2.switch_to now tf).2.1 = tf) := by
  have hsplit : splitAtTpidr tf.tpidr s.processes = some ([], p, []) := by
    rw [h1]
    unfold splitAtTpidr
    rw [if_pos h2]
  have hso := schedule_out_of_split_some s State.Ready tf [] [] p hsplit
  rw [hso]
  have hscan : scanReady now
      ({ s with
        processes :=
          [] ++ [] ++ [{ p with state := State.Ready, context := tf }] } :
          Scheduler).processes =
      ([], some ({ p with state := State.Ready, context := tf }, [])) := by
    simp [scanReady, isReady]
  rw [switch_to_of_scan_some _ now tf [] []
    { p with state := State.Ready, context := tf } hscan]
  exact ⟨rfl, rfl, rfl⟩

/-- Witness for C7 at a concrete one-process scheduler. -/
theorem schedule_out_then_switch_to_roundtrip_witness :
    (⟨[⟨{ TrapFrame.default with tpidr := 1 }, State.Ready⟩], some 1⟩ :
        Scheduler).processes =
      [⟨{ TrapFrame.default with tpidr := 1 }, State.Ready⟩] ∧
    (⟨{ TrapFrame.default with tpidr := 1 }, State.Ready⟩ :
        Process).context.tpidr =
      ({ TrapFrame.default with tpidr := 1 } : TrapFrame).tpidr ∧
    (((⟨[⟨{ TrapFrame.default with tpidr := 1 }, State.Ready⟩], some 1⟩ :
        Scheduler).schedule_out State.Ready
          { TrapFrame.default with tpidr := 1 }).1 = true ∧
      ((((⟨[⟨{ TrapFrame.default with tpidr := 1 }, State.Ready⟩], some 1⟩ :
          Scheduler).schedule_out State.Ready
            { TrapFrame.default with tpidr := 1 }).2.switch_to 0
              { TrapFrame.default with tpidr := 1 }).1 =
          some ({ TrapFrame.default with tpidr := 1 } : TrapFrame).tpidr ∧
        (((⟨[⟨{ TrapFrame.default with tpidr := 1 }, State.Ready⟩], some 1⟩ :
          Scheduler).schedule_out State.Ready
            { TrapFrame.default with tpidr := 1 }).2.switch_to 0
              { TrapFrame.default with tpidr := 1 }).2.1 =
          { TrapFrame.default with tpidr := 1 })) :=
  ⟨rfl, rfl,
    schedule_out_then_switch_to_roundtrip _ _ _ 0 rfl rfl⟩

/-! ## Claim C9: polling is effect-free on blocked processes -/

/-- Claim C9: a process in `Waiting(pred)` whose predicate returns false
(here: the sleep deadline has not passed) is left by `is_ready` exactly as
it was, state and predicate included; consequently a `switch_to` scan that
finds no ready process leaves the scheduler unchanged, and a scan that
selects a ready process leaves every passed-over and every remaining process
untouched. -/
theorem waiting_poll_is_effect_free (now st en : Nat) (p : Process)
    (s : Scheduler) (tf : TrapFrame)
    (hp : p.state = State.Waiting st en) (hlt : now < en) :
    isReady now p = (false, p) ∧
    (∀ q : Process, (isReady now q).1 = false → isReady now q = (false, q)) ∧
    ((s.switch_to now tf).1 = none → (s.switch_to now tf).2.2 = s) ∧
    (∀ pre q post, scanReady now s.processes = (pre, some (q, post)) →
      (∃ q0, s.processes = pre ++ q0 :: post) ∧
        (s.switch_to now tf).2.2.processes =
          { q with state := State.Running } :: (pre ++ post)) := by
  refine ⟨?_, fun q hq => isReady_false_eq now q hq, ?_, ?_⟩
  · simp [isReady, hp, Nat.not_le.mpr hlt]
  · intro hnone
    cases hscan : scanReady now s.processes with
    | mk pre res =>
      cases res with
      | none =>
        rw [switch_to_of_scan_none s now tf pre hscan]
        rw [scanReady_none_eq now s.processes pre hscan]
      | some x =>
        rw [switch_to_of_scan_some s now tf pre x.2 x.1
          (by rw [hscan])] at hnone
        simp at hnone
  · intro pre q post hscan
    obtain ⟨q0, hl, _⟩ := scanReady_some_eq now s.processes pre q post hscan
    refine ⟨⟨q0, hl⟩, ?_⟩
    rw [switch_to_of_scan_some s now tf pre post q hscan]

/-- Witness for C9: a process sleeping until time 5 polled at time 3, on a
scheduler holding only that process. -/
theorem waiting_poll_is_effect_free_witness :
    (⟨TrapFrame.default, State.Waiting 0 5⟩ : Process).state =
      State.Waiting 0 5 ∧
    3 < 5 ∧
    isReady 3 ⟨TrapFrame.default, State.Waiting 0 5⟩ =
      (false, ⟨TrapFrame.default, State.Waiting 0 5⟩) :=
  ⟨rfl, by omega,
    (waiting_poll_is_effect_free 3 0 5 ⟨TrapFrame.default, State.Waiting 0 5⟩
      ⟨[⟨TrapFrame.default, State.Waiting 0 5⟩], some 1⟩ TrapFrame.default
      rfl (by omega)).1⟩

/-! ## Claim C2: the syscall layer and unknown syscall numbers -/

/-- Claim C2 (code bug): the spec says the syscall layer never panics on
user input, but `handle_syscall`'s wildcard arm runs `unimplemented!()`:
for the user-reachable SVC number 6 (and likewise 0) with an arbitrary trap
frame, the code panics (modelled by `none`) instead of delivering an error
via `x7`. -/
theorem handle_syscall_panics_on_unknown_number :
    handle_syscall 6 0 TrapFrame.default Scheduler.new = none ∧
    handle_syscall 0 0 TrapFrame.default Scheduler.new = none := by
  constructor <;> rfl

/-! ## Claim C3: process ids -/

/-- The last element appended by a successful `add` has the assigned id as
its `tpidr`; `countTpidr` counts per-id occupancy. -/
theorem countTpidr_append (t : Nat) (l1 l2 : List Process) :
    countTpidr t (l1 ++ l2) = countTpidr t l1 + countTpidr t l2 := by
  unfold countTpidr
  exact List.countP_append _ _ _

/-- Unfolding lemma for `addN` in the successor case. -/
theorem addN_succ (n : Nat) : addN (n + 1) = ((addN n).add freshProcess).2 := rfl

/-- After `n` adds with `1 ≤ n ≤ u64::MAX`, `last_id = Some n` and exactly
one queued process has `tpidr = 1`. -/
theorem addN_state : ∀ n, 1 ≤ n → n ≤ U64_MAX →
    (addN n).last_id = some n ∧ countTpidr 1 (addN n).processes = 1 := by
  intro n
  induction n with
  | zero => omega
  | succ m ih =>
    intro _ hle
    by_cases hm : m = 0
    · subst hm
      constructor <;> rfl
    · have hm1 : 1 ≤ m := by omega
      have hmle : m ≤ U64_MAX := by omega
      obtain ⟨hlast, hcount⟩ := ih hm1 hmle
      have hne : m ≠ U64_MAX := by omega
      have hstep : addN (m + 1) = ((addN m).add freshProcess).2 := rfl
      rw [hstep, add_of_last_id_some (addN m) freshProcess m hlast hne]
      constructor
      · rfl
      · show countTpidr 1 ((addN m).processes ++ [_]) = 1
        rw [countTpidr_append, hcount]
        have : countTpidr 1
            [{ freshProcess with
                context := { freshProcess.context with tpidr := m + 1 } }] = 0 := by
          unfold countTpidr
          simp [List.countP_cons]
          omega
        rw [this]

/-- Two further `add` calls on a scheduler whose `last_id` is saturated at
`u64::MAX`: the first overflows (resetting `last_id` to `None`), the second
enqueues a process with the reused id 1. -/
theorem add_twice_after_saturation (S : Scheduler)
    (hlast : S.last_id = some U64_MAX)
    (hcount : countTpidr 1 S.processes = 1) :
    countTpidr 1 (((S.add freshProcess).2.add freshProcess).2).processes = 2 := by
  rw [add_of_last_id_max S freshProcess hlast]
  dsimp only
  rw [add_of_last_id_none { S with last_id := none } freshProcess rfl]
  dsimp only
  rw [countTpidr_append]
  have hsp : ({ S with last_id := none } : Scheduler).processes =
      S.processes := rfl
  rw [hsp, hcount]
  have hone : countTpidr 1
      [{ freshProcess with
          context := { freshProcess.context with tpidr := 1 } }] = 1 := by
    unfold countTpidr
    simp [List.countP_cons]
  rw [hone]

/-- Claim C3 (code bug): on `u64` overflow `add` stores `None` back into
`last_id`, so the next `add` restarts ids at 1: after `2^64 + 1` adds on one
scheduler, two queued processes both carry id 1.  This contradicts the
claimed strict monotonicity / id uniqueness (and the code's own doc comment,
by which no further processes can be scheduled after overflow). -/
theorem add_reuses_id_after_overflow :
    countTpidr 1 (addN (2 ^ 64 + 1)).processes = 2 := by
  obtain ⟨hlast, hcount⟩ := addN_state U64_MAX (by norm_num [U64_MAX]) le_rfl
  have hstep : addN (2 ^ 64) = ((addN U64_MAX).add freshProcess).2 := by
    have h64 : (2 : Nat) ^ 64 = U64_MAX + 1 := by norm_num [U64_MAX]
    rw [h64, addN_succ]
  rw [addN_succ (2 ^ 64), hstep]
  exact add_twice_after_saturation (addN U64_MAX) hlast hcount

/-! ## Claim C4: at most one Running process -/

theorem countRunning_append (l1 l2 : List Process) :
    countRunning (l1 ++ l2) = countRunning l1 + countRunning l2 := by
  unfold countRunning
  exact List.countP_append _ _ _

theorem countRunning_cons (p : Process) (l : List Process) :
    countRunning (p :: l) =
      countRunning l + if p.state = State.Running then 1 else 0 := by
  unfold countRunning
  rw [List.countP_cons]
  by_cases h : p.state = State.Running
  · simp [h]
  · simp [h]

/-- Claim C4 (counterexample to the claim as stated): the initial scheduler
state is reachable and has zero (not exactly one) `Running` processes. -/
theorem running_count_not_exactly_one :
    SchedReach Scheduler.new ∧ countRunning Scheduler.new.processes ≠ 1 :=
  ⟨SchedReach.init, by decide⟩

/-- Claim C4 (amended): in every scheduler state reachable through the
kernel's discipline (adds of `Ready` processes, `schedule_out` to a
non-`Running` state, `switch_to` only when nothing is `Running`, `kill`),
at most one queued process is `Running`. -/
theorem running_count_at_most_one (s : Scheduler) (h : SchedReach s) :
    countRunning s.processes ≤ 1 := by
  induction h with
  | init => decide
  | add s p hr hp ih =>
    cases hl : s.last_id with
    | none =>
      rw [add_of_last_id_none s p hl]
      show countRunning (s.processes ++ [_]) ≤ 1
      rw [countRunning_append]
      have : countRunning
          [{ p with context := { p.context with tpidr := 1 } }] = 0 := by
        rw [countRunning_cons]
        simp [countRunning, hp]
      omega
    | some lid =>
      by_cases hm : lid = U64_MAX
      · subst hm
        rw [add_of_last_id_max s p hl]
        exact ih
      · rw [add_of_last_id_some s p lid hl hm]
        show countRunning (s.processes ++ [_]) ≤ 1
        rw [countRunning_append]
        have : countRunning
            [{ p with context := { p.context with tpidr := lid + 1 } }] = 0 := by
          rw [countRunning_cons]
          simp [countRunning, hp]
        omega
  | schedOut s ns tf hr hns ih =>
    cases hsp : splitAtTpidr tf.tpidr s.processes with
    | none =>
      rw [schedule_out_of_split_none s ns tf hsp]
      exact ih
    | some x =>
      obtain ⟨pre, q, post⟩ := x
      rw [schedule_out_of_split_some s ns tf pre post q hsp]
      have hl := (splitAtTpidr_eq tf.tpidr s.processes pre q post hsp).1
      rw [hl] at ih
      show countRunning (pre ++ post ++ [_]) ≤ 1
      rw [countRunning_append, countRunning_append] at *
      rw [countRunning_cons] at ih
      have : countRunning [{ q with state := ns, context := tf }] = 0 := by
        rw [countRunning_cons]
        simp [countRunning, hns]
      omega
  | switchTo s now tf hr h0 ih =>
    cases hscan : scanReady now s.processes with
    | mk pre res =>
      cases res with
      | none =>
        rw [switch_to_of_scan_none s now tf pre hscan]
        rw [scanReady_none_eq now s.processes pre hscan]
        exact ih
      | some x =>
        obtain ⟨q, post⟩ := x
        rw [switch_to_of_scan_some s now tf pre post q hscan]
        obtain ⟨q0, hl, _⟩ := scanReady_some_eq now s.processes pre q post hscan
        rw [hl] at h0
        rw [countRunning_append, countRunning_cons] at h0
        show countRunning ({ q with state := State.Running } :: (pre ++ post)) ≤ 1
        rw [countRunning_cons, countRunning_append]
        have hq2 :
            (if ({ q with state := State.Running } : Process).state =
                State.Running then (1 : Nat) else 0) = 1 := by
          simp
        omega
  | kill s tf hr ih =>
    cases hsp : splitAtTpidr tf.tpidr s.processes with
    | none =>
      rw [kill_of_split_none s tf hsp]
      exact ih
    | some x =>
      obtain ⟨pre, q, post⟩ := x
      rw [kill_of_split_some s tf pre post q hsp]
      have hl := (splitAtTpidr_eq tf.tpidr s.processes pre q post hsp).1
      rw [hl] at ih
      show countRunning (pre ++ post) ≤ 1
      rw [countRunning_append] at *
      rw [countRunning_cons] at ih
      omega

/-- Witness for the amended C4 at the initial state. -/
theorem running_count_at_most_one_witness :
    SchedReach Scheduler.new ∧ countRunning Scheduler.new.processes ≤ 1 :=
  ⟨SchedReach.init, running_count_at_most_one Scheduler.new SchedReach.init⟩

/-! ## Allocator lemmas -/

theorem power_of_two_pow (j : Nat) : power_of_two (2 ^ j) = true := by
  unfold power_of_two
  rw [Nat.and_pow_two_sub_one_eq_mod]
  simp

theorem align_up_mod (n a : Nat) : align_up n a % a = 0 := by
  unfold align_up
  exact Nat.mul_mod_left _ _

theorem le_align_up (n a : Nat) (h : 0 < a) : n ≤ align_up n a := by
  unfold align_up
  rcases Nat.eq_zero_or_pos n with h0 | hn
  · subst h0
    simp
  · have hq : (n + a - 1) / a = (n - 1) / a + 1 := by
      have he : n + a - 1 = (n - 1) + a := by omega
      rw [he, Nat.add_div_right _ h]
    rw [hq, Nat.add_mul, Nat.one_mul]
    have h2 : (n - 1) % a < a := Nat.mod_lt _ h
    have h3 : (n - 1) / a * a + (n - 1) % a = n - 1 := Nat.div_add_mod' _ _
    omega

theorem scanBin_split (align : Nat) :
    ∀ l v rest, scanBin align l = some (v, rest) →
      ∃ l1 l2, l = l1 ++ v :: l2 ∧ rest = l1 ++ l2 ∧ v % align = 0 := by
  intro l
  induction l with
  | nil =>
    intro v rest h
    simp [scanBin] at h
  | cons x xs ih =>
    intro v rest h
    unfold scanBin at h
    split at h
    · rename_i hx
      injection h with h
      injection h with h1 h2
      refine ⟨[], xs, ?_, ?_, h1 ▸ hx⟩
      · rw [← h1]
        simp
      · rw [← h2]
        simp
    · rename_i hx
      split at h
      · rename_i v1 rest1 hs
        injection h with h
        injection h with h1 h2
        obtain ⟨l1, l2, hl, hr, hm⟩ := ih v1 rest1 hs
        refine ⟨x :: l1, l2, ?_, ?_, ?_⟩
        · rw [← h1]
          simp only [List.cons_append]
          exact congrArg (x :: ·) hl
        · rw [← h2, hr]
          simp
        · rw [← h1]
          exact hm
      · exact absurd h (by simp)

theorem flatMap_congr_mem (l : List Nat) (f g : Nat → List (Nat × Nat))
    (h : ∀ k ∈ l, f k = g k) : l.flatMap f = l.flatMap g := by
  induction l with
  | nil => rfl
  | cons x xs ih =>
    simp only [List.flatMap_cons]
    rw [h x (by simp), ih fun k hk => h k (by simp [hk])]

theorem flatMap_range_extract (f g : Nat → List (Nat × Nat)) (x : Nat × Nat) :
    ∀ n bin, bin < n → (∀ k, k < n → k ≠ bin → f k = g k) →
      List.Perm (f bin) (x :: g bin) →
      List.Perm ((List.range n).flatMap f) (x :: (List.range n).flatMap g) := by
  intro n
  induction n with
  | zero =>
    intro bin h
    omega
  | succ m ih =>
    intro bin hbin hfg hx
    rw [List.range_succ, List.flatMap_append, List.flatMap_append]
    simp only [List.flatMap_cons, List.flatMap_nil, List.append_nil]
    by_cases hb : bin = m
    · subst hb
      have hfg2 : (List.range bin).flatMap f = (List.range bin).flatMap g :=
        flatMap_congr_mem _ _ _ fun k hk =>
          hfg k (by simp [List.mem_range] at hk; omega)
            (by simp [List.mem_range] at hk; omega)
      rw [hfg2]
      exact (hx.append_left _).trans List.perm_middle
    · have hfm : f m = g m := hfg m (by omega) fun he => hb he.symm
      have ihh := ih bin (by omega) (fun k hk hkb => hfg k (by omega) hkb) hx
      rw [hfm]
      exact ihh.append_right (g m)

theorem binBlocks_update_perm (s : Allocator) (bin : Nat)
    (hbin : bin < MAX_BINS) (x : Nat) (newl : List Nat)
    (h : List.Perm (s.bins bin) (x :: newl)) :
    List.Perm (binBlocks s)
      ((x, bin) ::
        binBlocks
          { s with bins := fun i => if i = bin then newl else s.bins i }) := by
  unfold binBlocks
  refine flatMap_range_extract _ _ (x, bin) MAX_BINS bin hbin ?_ ?_
  · intro k hk hkb
    simp [hkb]
  · simp only [if_pos rfl]
    exact h.map _

theorem blockDisj_symm : Symmetric blockDisj := by
  intro p q h
  unfold blockDisj disj at *
  omega

/-! ### Alloc branch computations -/

theorem alloc_of_pow_false (s : Allocator) (size align : Nat)
    (hpow : power_of_two align = false) : s.alloc size align = none := by
  unfold Allocator.alloc
  rw [if_neg (by simp [hpow])]

theorem alloc_of_bin_ge (s : Allocator) (size align : Nat)
    (hpow : power_of_two align = true)
    (hge : MAX_BINS ≤ map_to_bin (max size align)) :
    s.alloc size align = some (none, s) := by
  unfold Allocator.alloc
  rw [if_pos hpow]
  simp only []
  rw [if_pos hge]

theorem alloc_of_scan_some (s : Allocator) (size align addr : Nat)
    (rest : List Nat) (hpow : power_of_two align = true)
    (hlt : map_to_bin (max size align) < MAX_BINS)
    (hs : scanBin align (s.bins (map_to_bin (max size align))) =
      some (addr, rest)) :
    s.alloc size align =
      some (some addr,
        { s with
          bins := fun i =>
            if i = map_to_bin (max size align) then rest else s.bins i }) := by
  unfold Allocator.alloc
  rw [if_pos hpow]
  simp only []
  rw [if_neg (by omega), hs]

theorem alloc_of_scan_none_over (s : Allocator) (size align : Nat)
    (hpow : power_of_two align = true)
    (hlt : map_to_bin (max size align) < MAX_BINS)
    (hs : scanBin align (s.bins (map_to_bin (max size align))) = none)
    (hover : s.end_ <
      align_up s.current align + size_for_bin (map_to_bin (max size align))) :
    s.alloc size align = some (none, s) := by
  unfold Allocator.alloc
  rw [if_pos hpow]
  simp only []
  rw [if_neg (by omega), hs]
  simp only []
  rw [if_pos hover]

theorem alloc_of_scan_none_fit (s : Allocator) (size align : Nat)
    (hpow : power_of_two align = true)
    (hlt : map_to_bin (max size align) < MAX_BINS)
    (hs : scanBin align (s.bins (map_to_bin (max size align))) = none)
    (hfit : ¬ s.end_ <
      align_up s.current align + size_for_bin (map_to_bin (max size align))) :
    s.alloc size align =
      some (some (align_up s.current align),
        { s with
          current :=
            align_up s.current align +
              size_for_bin (map_to_bin (max size align)) }) := by
  unfold Allocator.alloc
  rw [if_pos hpow]
  simp only []
  rw [if_neg (by omega), hs]
  simp only []
  rw [if_neg hfit]

/-! ## Claim C1: alloc alignment, freshness and null conditions -/

theorem alloc_correct_core (s : Allocator) (live : List (Nat × Nat))
    (size align j : Nat) (hal : align = 2 ^ j) (hsz : 0 < size)
    (hinv : AllocInv s live) : AllocCorrect s live size align := by
  have hpow : power_of_two align = true := by
    rw [hal]
    exact power_of_two_pow j
  have hapos : 0 < align := by
    rw [hal]
    exact Nat.pos_pow_of_pos j (by norm_num)
  refine ⟨fun hge => alloc_of_bin_ge s size align hpow hge, ?_, ?_⟩
  · intro hs hover
    by_cases hge : MAX_BINS ≤ map_to_bin (max size align)
    · exact alloc_of_bin_ge s size align hpow hge
    · exact alloc_of_scan_none_over s size align hpow (by omega) hs hover
  · intro a s2 h
    by_cases hge : MAX_BINS ≤ map_to_bin (max size align)
    · rw [alloc_of_bin_ge s size align hpow hge] at h
      simp at h
    · have hlt : map_to_bin (max size align) < MAX_BINS := by omega
      cases hscan : scanBin align (s.bins (map_to_bin (max size align))) with
      | some x =>
        obtain ⟨addr, rest⟩ := x
        rw [alloc_of_scan_some s size align addr rest hpow hlt hscan] at h
        injection h with h
        injection h with ha hs2
        injection ha with ha
        subst ha
        subst hs2
        obtain ⟨l1, l2, hb, hr, hm⟩ :=
          scanBin_split align (s.bins (map_to_bin (max size align))) addr rest hscan
        have hperm0 :
            List.Perm (s.bins (map_to_bin (max size align))) (addr :: rest) := by
          rw [hb, hr]
          exact List.perm_middle
        have hperm :=
          binBlocks_update_perm s (map_to_bin (max size align)) hlt addr rest hperm0
        have hperm2 : List.Perm (live ++ binBlocks s)
            ((addr, map_to_bin (max size align)) ::
              (live ++ binBlocks
                { s with
                  bins := fun i =>
                    if i = map_to_bin (max size align) then rest
                    else s.bins i })) :=
          (hperm.append_left live).trans List.perm_middle
        have hpw := (hperm2.pairwise_iff fun hsy => blockDisj_symm hsy).mp hinv.2
        rw [List.pairwise_cons] at hpw
        obtain ⟨hdisj, hrest⟩ := hpw
        refine ⟨hm, ?_, ?_, ?_, ?_⟩
        · exact fun p hp => hdisj p (List.mem_append_left _ hp)
        · exact fun p hp => hdisj p (List.mem_append_right _ hp)
        · intro p hp
          have hp2 : p ∈ (addr, map_to_bin (max size align)) ::
              (live ++ binBlocks
                { s with
                  bins := fun i =>
                    if i = map_to_bin (max size align) then rest
                    else s.bins i }) := by
            simpa using hp
          have hp3 := hperm2.symm.subset hp2
          exact hinv.1 p hp3
        · show List.Pairwise blockDisj _
          have : ((addr, map_to_bin (max size align)) :: live) ++
              binBlocks
                { s with
                  bins := fun i =>
                    if i = map_to_bin (max size align) then rest
                    else s.bins i } =
              (addr, map_to_bin (max size align)) ::
                (live ++ binBlocks
                  { s with
                    bins := fun i =>
                      if i = map_to_bin (max size align) then rest
                      else s.bins i }) := by
            simp
          rw [this, List.pairwise_cons]
          exact ⟨hdisj, hrest⟩
      | none =>
        by_cases hover : s.end_ <
            align_up s.current align +
              size_for_bin (map_to_bin (max size align))
        · rw [alloc_of_scan_none_over s size align hpow hlt hscan hover] at h
          simp at h
        · rw [alloc_of_scan_none_fit s size align hpow hlt hscan hover] at h
          injection h with h
          injection h with ha hs2
          injection ha with ha
          subst ha
          subst hs2
          have hle : s.current ≤ align_up s.current align :=
            le_align_up _ _ hapos
          have hbb : binBlocks
              { s with
                current :=
                  align_up s.current align +
                    size_for_bin (map_to_bin (max size align)) } =
              binBlocks s := rfl
          refine ⟨align_up_mod _ _, ?_, ?_, ?_, ?_⟩
          · intro p hp
            have := hinv.1 p (List.mem_append_left _ hp)
            unfold disj
            omega
          · intro p hp
            rw [hbb] at hp
            have := hinv.1 p (List.mem_append_right _ hp)
            unfold disj
            omega
          · intro p hp
            rw [hbb] at hp
            rcases List.mem_append.mp hp with hp1 | hp2
            · rcases List.mem_cons.mp hp1 with hp3 | hp4
              · subst hp3
                dsimp only
                omega
              · have := hinv.1 p (List.mem_append_left _ hp4)
                dsimp only
                omega
            · have := hinv.1 p (List.mem_append_right _ hp2)
              dsimp only
              omega
          · show List.Pairwise blockDisj _
            have hre : ((align_up s.current align,
                map_to_bin (max size align)) :: live) ++
                binBlocks
                  { s with
                    current :=
                      align_up s.current align +
                        size_for_bin (map_to_bin (max size align)) } =
                (align_up s.current align, map_to_bin (max size align)) ::
                  (live ++ binBlocks s) := by
              rw [hbb]
              simp
            rw [hre, List.pairwise_cons]
            refine ⟨?_, hinv.2⟩
            intro p hp
            have := hinv.1 p hp
            unfold blockDisj disj
            right
            omega

/-- Claim C1: for a request `(size, align)` with `align` a power of two and
`size > 0`, on any allocator satisfying the invariant with live blocks
`live`: `alloc` returns null when the size class `k` is 32 or more, and when
the free-list scan fails and the bump reservation would exceed `end`; and a
non-null result `a` is a multiple of `align` and its `2^(k+3)`-byte region
overlaps no live block and no node remaining on a free list, the invariant
being preserved. -/
theorem alloc_correct (s : Allocator) (live : List (Nat × Nat))
    (size align j : Nat) (hal : align = 2 ^ j) (hsz : 0 < size)
    (hinv : AllocInv s live) : AllocCorrect s live size align :=
  alloc_correct_core s live size align j hal hsz hinv

/-- Witness for C1 on a concrete empty allocator and the request
`(16, 8)`. -/
theorem alloc_correct_witness :
    (8 : Nat) = 2 ^ 3 ∧ (0 : Nat) < 16 ∧ AllocInv allocSample [] ∧
      AllocCorrect allocSample [] 16 8 := by
  have hinv : AllocInv allocSample [] := by
    constructor
    · intro p hp
      simp [binBlocks, allocSample] at hp
    · have : ([] : List (Nat × Nat)) ++ binBlocks allocSample = [] := by
        simp [binBlocks, allocSample]
      rw [this]
      exact List.Pairwise.nil
  exact ⟨by norm_num, by norm_num, hinv,
    alloc_correct allocSample [] 16 8 3 (by norm_num) (by norm_num) hinv⟩

/-! ## Claim C8: dealloc after a successful alloc -/

theorem alloc_some_bin_lt (s : Allocator) (size align a : Nat)
    (s2 : Allocator) (h : s.alloc size align = some (some a, s2)) :
    map_to_bin (max size align) < MAX_BINS := by
  by_cases hpow : power_of_two align = true
  · by_cases hge : MAX_BINS ≤ map_to_bin (max size align)
    · rw [alloc_of_bin_ge s size align hpow hge] at h
      simp at h
    · omega
  · rw [alloc_of_pow_false s size align (by simpa using hpow)] at h
    simp at h

/-- Claim C8: when `(a, (size, align))` come from a prior successful `alloc`
on the same allocator (so `align` is a power of two and the computed class is
below 32), `dealloc` does not panic: both assertions hold, and it pushes `a`
onto exactly the free list of the class `alloc` computed for that layout,
leaving every other free list, `current` and `end` unchanged. -/
theorem dealloc_no_panic_matches_class (s s2 sd : Allocator)
    (size align j a : Nat) (hal : align = 2 ^ j)
    (h : s.alloc size align = some (some a, s2)) :
    ∃ s3, sd.dealloc a size align = some s3 ∧
      s3.bins (map_to_bin (max size align)) =
        a :: sd.bins (map_to_bin (max size align)) ∧
      (∀ k, k ≠ map_to_bin (max size align) → s3.bins k = sd.bins k) ∧
      s3.current = sd.current ∧ s3.end_ = sd.end_ := by
  have hpow : power_of_two align = true := by
    rw [hal]
    exact power_of_two_pow j
  have hlt := alloc_some_bin_lt s size align a s2 h
  have hd : sd.dealloc a size align =
      some
        { sd with
          bins := fun i =>
            if i = map_to_bin (max size align) then a :: sd.bins i
            else sd.bins i } := by
    unfold Allocator.dealloc
    rw [if_pos hpow]
    simp only []
    rw [if_pos hlt]
  refine ⟨_, hd, ?_, ?_, rfl, rfl⟩
  · simp
  · intro k hk
    simp [hk]

/-- Witness for C8: allocate `(16, 8)` from the sample allocator, then
dealloc the returned block on the resulting allocator. -/
theorem dealloc_no_panic_matches_class_witness :
    ((8 : Nat) = 2 ^ 3 ∧
      allocSample.alloc 16 8 =
        some (some 64, { allocSample with current := 80 })) ∧
    (∃ s3, ({ allocSample with current := 80 } : Allocator).dealloc 64 16 8 =
        some s3 ∧
      s3.bins (map_to_bin (max 16 8)) =
        64 :: ({ allocSample with current := 80 } : Allocator).bins
          (map_to_bin (max 16 8)) ∧
      (∀ k, k ≠ map_to_bin (max 16 8) →
        s3.bins k = ({ allocSample with current := 80 } : Allocator).bins k) ∧
      s3.current = ({ allocSample with current := 80 } : Allocator).current ∧
      s3.end_ = ({ allocSample with current := 80 } : Allocator).end_) := by
  have halloc : allocSample.alloc 16 8 =
      some (some 64, { allocSample with current := 80 }) := by
    have hscan : scanBin 8 (allocSample.bins (map_to_bin (max 16 8))) = none := rfl
    have hbin : map_to_bin (max 16 8) = 1 := by
      simp [map_to_bin, mapToBinFrom]
    have := alloc_of_scan_none_fit allocSample 16 8 (by decide)
      (by rw [hbin]; norm_num [MAX_BINS]) hscan
      (by rw [hbin]; simp [allocSample, align_up, size_for_bin])
    rw [this, hbin]
    simp [allocSample, align_up, size_for_bin]
  exact ⟨⟨by norm_num, halloc⟩,
    dealloc_no_panic_matches_class allocSample
      { allocSample with current := 80 } { allocSample with current := 80 }
      16 8 3 64 (by norm_num) halloc⟩

/-! ## Claim C6: sys_sleep -/

/-- Claim C6: `sys_sleep(ms, tf)` installs `Waiting(pred)` with
`pred` true iff the current time is at least `start + ms`; when it fires it
writes the true elapsed milliseconds (at least `ms`) into `x0` and the Ok
status into `x7`, so the resuming process observes `elapsed >= ms` and
`x7 == Ok`. -/
theorem sys_sleep_correct (now ms : Nat) (tf : TrapFrame) (s : Scheduler)
    (pre post : List Process) (q : Process)
    (hsplit : splitAtTpidr tf.tpidr s.processes = some (pre, q, post))
    (hlen : tf.xregs.length = 32) :
    SysSleepSpec now ms tf s pre post := by
  refine ⟨?_, ?_, ?_⟩
  · unfold sys_sleep Scheduler.switch
    simp only []
    rw [schedule_out_of_split_some s (State.Waiting now (now + ms)) tf
      pre post q hsplit]
  · intro now2
    unfold isReady
    by_cases hle : now + ms ≤ now2
    · simp [hle]
    · simp [hle]
  · intro now2 hle hlt
    unfold isReady
    dsimp only
    rw [if_pos hle]
    refine ⟨_, rfl, rfl, ?_, ?_, ?_, rfl, rfl, rfl, rfl⟩
    · show (((tf.xregs.set 0 ((now2 - now) % 2 ^ 64)).set 7 osErrorOk)).getD 0 0 =
        now2 - now
      rw [show ((tf.xregs.set 0 ((now2 - now) % 2 ^ 64)).set 7
          osErrorOk).getD 0 0 =
          (tf.xregs.set 0 ((now2 - now) % 2 ^ 64)).getD 0 0 by
        simp [List.getD, List.getElem?_set_ne]]
      have h0 : 0 < (tf.xregs.set 0 ((now2 - now) % 2 ^ 64)).length := by
        simp [hlen]
      rw [show (tf.xregs.set 0 ((now2 - now) % 2 ^ 64)).getD 0 0 =
          (now2 - now) % 2 ^ 64 by
        simp [List.getD, List.getElem?_set_self, hlen]]
      exact Nat.mod_eq_of_lt hlt
    · show ms ≤ (((tf.xregs.set 0 ((now2 - now) % 2 ^ 64)).set 7
        osErrorOk)).getD 0 0
      rw [show ((tf.xregs.set 0 ((now2 - now) % 2 ^ 64)).set 7
          osErrorOk).getD 0 0 =
          (tf.xregs.set 0 ((now2 - now) % 2 ^ 64)).getD 0 0 by
        simp [List.getD, List.getElem?_set_ne]]
      rw [show (tf.xregs.set 0 ((now2 - now) % 2 ^ 64)).getD 0 0 =
          (now2 - now) % 2 ^ 64 by
        simp [List.getD, List.getElem?_set_self, hlen]]
      rw [Nat.mod_eq_of_lt hlt]
      omega
    · show (((tf.xregs.set 0 ((now2 - now) % 2 ^ 64)).set 7
        osErrorOk)).getD 7 0 = osErrorOk
      simp [List.getD, List.getElem?_set_self, hlen]

/-- Witness for C6: a single-process scheduler, `sleep(100)` at time 5. -/
theorem sys_sleep_correct_witness :
    splitAtTpidr (TrapFrame.default.tpidr)
        (⟨[⟨TrapFrame.default, State.Ready⟩], some 1⟩ : Scheduler).processes =
      some ([], ⟨TrapFrame.default, State.Ready⟩, []) ∧
    TrapFrame.default.xregs.length = 32 ∧
    SysSleepSpec 5 100 TrapFrame.default
      ⟨[⟨TrapFrame.default, State.Ready⟩], some 1⟩ [] [] :=
  ⟨rfl, by simp [TrapFrame.default],
    sys_sleep_correct 5 100 TrapFrame.default
      ⟨[⟨TrapFrame.default, State.Ready⟩], some 1⟩ [] []
      ⟨TrapFrame.default, State.Ready⟩ rfl (by simp [TrapFrame.default])⟩

/-! ## Page-table lemmas -/

theorem entryValid_zero : entryValid 0 = false := rfl

theorem mapToBinFrom_page : mapToBinFrom 65536 3 = 16 := by
  simp [mapToBinFrom]

theorem map_to_bin_page : map_to_bin (max PAGE_SIZE PAGE_SIZE) = 13 := by
  have h1 : max PAGE_SIZE PAGE_SIZE = 65536 := by
    simp [PAGE_SIZE]
  rw [map_to_bin, h1]
  have h2 : mapToBinFrom 65536 3 = 16 := mapToBinFrom_page
  omega

theorem mkUserL3Entry_eq (ptr : Nat) :
    mkUserL3Entry ptr = 1859 + ptr / 2 ^ 16 % 2 ^ 32 * 2 ^ 16 := by
  unfold mkUserL3Entry setBits USER_RW ATTR_NORMAL SH_INNER
  norm_num
  omega

theorem mkUserL3Entry_valid (ptr : Nat) :
    entryValid (mkUserL3Entry ptr) = true := by
  rw [mkUserL3Entry_eq]
  unfold entryValid getBits
  have hx : ptr / 2 ^ 16 % 2 ^ 32 < 2 ^ 32 := Nat.mod_lt _ (by norm_num)
  simp only [bne_iff_ne, ne_eq]
  omega

theorem mkUserL3Entry_fields (ptr : Nat) :
    getBits (mkUserL3Entry ptr) 0 1 = 1 ∧
    getBits (mkUserL3Entry ptr) 1 1 = 1 ∧
    getBits (mkUserL3Entry ptr) 10 1 = 1 ∧
    getBits (mkUserL3Entry ptr) 6 2 = USER_RW ∧
    getBits (mkUserL3Entry ptr) 2 3 = ATTR_NORMAL ∧
    getBits (mkUserL3Entry ptr) 8 2 = SH_INNER := by
  rw [mkUserL3Entry_eq]
  unfold getBits USER_RW ATTR_NORMAL SH_INNER
  have hx : ptr / 2 ^ 16 % 2 ^ 32 < 2 ^ 32 := Nat.mod_lt _ (by norm_num)
  refine ⟨?_, ?_, ?_, ?_, ?_, ?_⟩ <;> omega

theorem entryAddr_mkUserL3Entry (ptr : Nat) (h1 : ptr % PAGE_SIZE = 0)
    (h2 : ptr < 2 ^ 48) : entryAddr (mkUserL3Entry ptr) = ptr := by
  rw [mkUserL3Entry_eq]
  unfold entryAddr PAGE_SIZE at *
  have hx : ptr / 2 ^ 16 % 2 ^ 32 < 2 ^ 32 := Nat.mod_lt _ (by norm_num)
  omega

theorem alloc_some_bounds (s : Allocator) (size align a : Nat) (s2 : Allocator)
    (h : s.alloc size align = some (some a, s2)) :
    s2.end_ = s.end_ ∧ (s.current ≤ s.end_ → s2.current ≤ s2.end_) := by
  by_cases hpow : power_of_two align = true
  · by_cases hge : MAX_BINS ≤ map_to_bin (max size align)
    · rw [alloc_of_bin_ge s size align hpow hge] at h
      simp at h
    · have hlt : map_to_bin (max size align) < MAX_BINS := by omega
      cases hscan : scanBin align (s.bins (map_to_bin (max size align))) with
      | some x =>
        obtain ⟨addr, rest⟩ := x
        rw [alloc_of_scan_some s size align addr rest hpow hlt hscan] at h
        injection h with h
        injection h with ha hs2
        rw [← hs2]
        exact ⟨rfl, fun hc => hc⟩
      | none =>
        by_cases hover : s.end_ <
            align_up s.current align +
              size_for_bin (map_to_bin (max size align))
        · rw [alloc_of_scan_none_over s size align hpow hlt hscan hover] at h
          simp at h
        · rw [alloc_of_scan_none_fit s size align hpow hlt hscan hover] at h
          injection h with h
          injection h with ha hs2
          rw [← hs2]
          exact ⟨rfl, fun _ => by dsimp only; omega⟩
  · rw [alloc_of_pow_false s size align (by simpa using hpow)] at h
    simp at h

theorem uptAlloc_eq (vs : VMState) (va : Nat) (perm : PagePerm)
    (i j ptr : Nat) (heap2 : Allocator)
    (hge : ¬ va < USER_IMG_BASE) (hloc : locate va = some (i, j))
    (hnv : entryValid (vs.upt.l3 i j) = false)
    (halloc : vs.heap.alloc PAGE_SIZE PAGE_SIZE = some (some ptr, heap2))
    (hptr : ptr ≠ 0) :
    uptAlloc vs va perm =
      some
        { upt :=
            ⟨fun a b =>
              if a = i ∧ b = j then mkUserL3Entry ptr else vs.upt.l3 a b⟩,
          heap := heap2,
          live := (ptr, map_to_bin (max PAGE_SIZE PAGE_SIZE)) :: vs.live,
          returned := ptr :: vs.returned } := by
  unfold uptAlloc
  rw [if_neg hge, hloc]
  dsimp only
  rw [if_neg (by simp [hnv]), halloc]
  dsimp only
  rw [if_neg hptr]

theorem uptAlloc_some_inv (vs : VMState) (va : Nat) (perm : PagePerm)
    (vs2 : VMState) (h : uptAlloc vs va perm = some vs2) :
    ∃ i j ptr heap2, ¬ va < USER_IMG_BASE ∧ locate va = some (i, j) ∧
      entryValid (vs.upt.l3 i j) = false ∧
      vs.heap.alloc PAGE_SIZE PAGE_SIZE = some (some ptr, heap2) ∧
      ptr ≠ 0 ∧
      vs2 =
        { upt :=
            ⟨fun a b =>
              if a = i ∧ b = j then mkUserL3Entry ptr else vs.upt.l3 a b⟩,
          heap := heap2,
          live := (ptr, map_to_bin (max PAGE_SIZE PAGE_SIZE)) :: vs.live,
          returned := ptr :: vs.returned } := by
  unfold uptAlloc at h
  split at h
  · simp at h
  · rename_i hge0
    split at h
    · simp at h
    · rename_i x i0 j0 hloc
      split at h
      · simp at h
      · rename_i hnv
        split at h
        · simp at h
        · simp at h
        · rename_i ptr0 heap0 halloc0
          split at h
          · simp at h
          · rename_i hptr0
            injection h with h
            exact ⟨i0, j0, ptr0, heap0, hge0, hloc,
              by simpa using hnv, halloc0, hptr0, h.symm⟩

/-- Every reachable page-table state satisfies the combined invariant. -/
theorem vmreach_inv (vs : VMState) (h : VMReach vs) : UPTInv vs := by
  induction h with
  | init heap live returned hinv hce he =>
    refine ⟨hinv, hce, he, ?_, ?_⟩
    · intro i j _ _ hv
      simp [UserPageTable.new, entryValid, getBits] at hv
    · intro i j i2 j2 _ _ _ _ hv
      simp [UserPageTable.new, entryValid, getBits] at hv
  | step vs va perm vs2 hr heq ih =>
    obtain ⟨i, j, ptr, heap2, hge, hloc, hnv, halloc, hptr, hvs2⟩ :=
      uptAlloc_some_inv vs va perm vs2 heq
    subst hvs2
    obtain ⟨hainv, hcur, hend, hent, hdist⟩ := ih
    have hac := alloc_correct_core vs.heap vs.live PAGE_SIZE PAGE_SIZE 16
      (by norm_num [PAGE_SIZE]) (by norm_num [PAGE_SIZE]) hainv
    obtain ⟨hmod, hlive, hfree, hinv2⟩ := hac.2.2 ptr heap2 halloc
    have hbounds := alloc_some_bounds vs.heap PAGE_SIZE PAGE_SIZE ptr heap2 halloc
    have hptrlt : ptr < 2 ^ 48 := by
      have hmem : (ptr, map_to_bin (max PAGE_SIZE PAGE_SIZE)) ∈
          ((ptr, map_to_bin (max PAGE_SIZE PAGE_SIZE)) :: vs.live) ++
            binBlocks heap2 := by
        simp
      have hb := hinv2.1 _ hmem
      have h1 : 0 < size_for_bin (map_to_bin (max PAGE_SIZE PAGE_SIZE)) := by
        rw [map_to_bin_page]
        norm_num [size_for_bin]
      have h2 := hbounds.2 hcur
      rw [hbounds.1] at h2
      dsimp only at hb
      omega
    have haddr : entryAddr (mkUserL3Entry ptr) = ptr :=
      entryAddr_mkUserL3Entry ptr hmod hptrlt
    refine ⟨hinv2, ?_, ?_, ?_, ?_⟩
    · exact hbounds.2 hcur
    · rw [hbounds.1]
      exact hend
    · intro a b ha hb hv
      dsimp only at hv ⊢
      by_cases hab : a = i ∧ b = j
      · rw [if_pos hab] at hv ⊢
        rw [haddr]
        refine ⟨hmod, by simp, ?_⟩
        rw [← map_to_bin_page]
        simp
      · rw [if_neg hab] at hv ⊢
        obtain ⟨hm1, hm2, hm3⟩ := hent a b ha hb hv
        exact ⟨hm1, by simp [hm2], by simp [hm3]⟩
    · intro a b a2 b2 ha hb ha2 hb2 hv hv2 hne
      dsimp only at hv hv2 ⊢
      by_cases hab : a = i ∧ b = j
      · by_cases hab2 : a2 = i ∧ b2 = j
        · exfalso
          apply hne
          obtain ⟨x1, x2⟩ := hab
          obtain ⟨y1, y2⟩ := hab2
          subst x1; subst x2; subst y1; subst y2
          rfl
        · rw [if_pos hab] at hv ⊢
          rw [if_neg hab2] at hv2 ⊢
          rw [haddr]
          obtain ⟨_, _, hm3⟩ := hent a2 b2 ha2 hb2 hv2
          have hd := hlive _ hm3
          have h1 : 0 < size_for_bin (map_to_bin (max PAGE_SIZE PAGE_SIZE)) := by
            rw [map_to_bin_page]
            norm_num [size_for_bin]
          have h2 : 0 < size_for_bin 13 := by norm_num [size_for_bin]
          unfold disj at hd
          dsimp only at hd
          omega
      · by_cases hab2 : a2 = i ∧ b2 = j
        · rw [if_neg hab] at hv ⊢
          rw [if_pos hab2] at hv2 ⊢
          rw [haddr]
          obtain ⟨_, _, hm3⟩ := hent a b ha hb hv
          have hd := hlive _ hm3
          have h1 : 0 < size_for_bin (map_to_bin (max PAGE_SIZE PAGE_SIZE)) := by
            rw [map_to_bin_page]
            norm_num [size_for_bin]
          have h2 : 0 < size_for_bin 13 := by norm_num [size_for_bin]
          unfold disj at hd
          dsimp only at hd
          omega
        · rw [if_neg hab] at hv ⊢
          rw [if_neg hab2] at hv2 ⊢
          exact hdist a b a2 b2 ha hb ha2 hb2 hv hv2 hne
  | extAlloc vs size align a heap2 j hr hj hsz halloc ih =>
    obtain ⟨hainv, hcur, hend, hent, hdist⟩ := ih
    have hac := alloc_correct_core vs.heap vs.live size align j hj hsz hainv
    obtain ⟨hmod, hlive, hfree, hinv2⟩ := hac.2.2 a heap2 halloc
    have hbounds := alloc_some_bounds vs.heap size align a heap2 halloc
    refine ⟨hinv2, hbounds.2 hcur, ?_, ?_, ?_⟩
    · rw [hbounds.1]
      exact hend
    · intro i0 j0 hi0 hj0 hv
      dsimp only at hv ⊢
      obtain ⟨hm1, hm2, hm3⟩ := hent i0 j0 hi0 hj0 hv
      exact ⟨hm1, by simp [hm2], by simp [hm3]⟩
    · intro i0 j0 i2 j2 hi0 hj0 hi2 hj2 hv hv2 hne
      dsimp only at hv hv2 ⊢
      exact hdist i0 j0 i2 j2 hi0 hj0 hi2 hj2 hv hv2 hne

theorem nodup_filterMap_of_pairwise (l : List Nat) (f : Nat → Option Nat)
    (h : l.Pairwise fun a b => ∀ c, c ∈ f a → c ∈ f b → False) :
    (l.filterMap f).Nodup := by
  induction l with
  | nil => simp
  | cons x xs ih =>
    rw [List.pairwise_cons] at h
    obtain ⟨hx, hxs⟩ := h
    rw [List.filterMap_cons]
    cases hf : f x with
    | none => exact ih hxs
    | some b =>
      refine List.Nodup.cons ?_ (ih hxs)
      intro hmem
      obtain ⟨a2, ha2, hfa2⟩ := List.mem_filterMap.mp hmem
      exact hx a2 ha2 b (by simp [hf]) (by simp [hfa2])

theorem tableDeallocs_map_fst (u : UserPageTable) (i : Nat) :
    (tableDeallocs u i).map Prod.fst =
      (List.range 8192).filterMap fun j =>
        if entryValid (u.l3 i j) = true then some (entryAddr (u.l3 i j))
        else none := by
  unfold tableDeallocs
  rw [List.map_filterMap]
  congr 1
  funext j
  by_cases hv : entryValid (u.l3 i j) = true
  · simp [hv]
  · simp [hv]

theorem mem_tableDeallocs (u : UserPageTable) (i : Nat) (x : Nat × Nat × Nat) :
    x ∈ tableDeallocs u i ↔
      ∃ j, j < 8192 ∧ entryValid (u.l3 i j) = true ∧
        x = (entryAddr (u.l3 i j), (PAGE_SIZE, PAGE_SIZE)) := by
  unfold tableDeallocs
  rw [List.mem_filterMap]
  constructor
  · rintro ⟨j, hj, hfj⟩
    rw [List.mem_range] at hj
    by_cases hv : entryValid (u.l3 i j) = true
    · rw [if_pos hv] at hfj
      refine ⟨j, hj, hv, ?_⟩
      simpa [eq_comm] using hfj
    · rw [if_neg hv] at hfj
      simp at hfj
  · rintro ⟨j, hj, hv, hx⟩
    exact ⟨j, List.mem_range.mpr hj, by rw [if_pos hv, hx]⟩

theorem mem_tableDeallocs_fst (u : UserPageTable) (i c : Nat) :
    c ∈ (tableDeallocs u i).map Prod.fst ↔
      ∃ j, j < 8192 ∧ entryValid (u.l3 i j) = true ∧
        c = entryAddr (u.l3 i j) := by
  rw [tableDeallocs_map_fst, List.mem_filterMap]
  constructor
  · rintro ⟨j, hj, hfj⟩
    rw [List.mem_range] at hj
    by_cases hv : entryValid (u.l3 i j) = true
    · rw [if_pos hv] at hfj
      refine ⟨j, hj, hv, ?_⟩
      simpa [eq_comm] using hfj
    · rw [if_neg hv] at hfj
      simp at hfj
  · rintro ⟨j, hj, hv, hx⟩
    exact ⟨j, List.mem_range.mpr hj, by rw [if_pos hv, hx]⟩

/-! ## Claim C5: UserPageTable drop -/

/-- Claim C5: in every reachable page-table state, dropping the
`UserPageTable` deallocates exactly the pages referenced by its valid L3
entries, each exactly once, at the 64 KiB page layout; every such page is
64 KiB-aligned and was previously returned by the bin allocator. -/
theorem upt_drop_exactly_valid_pages (vs : VMState) (h : VMReach vs) :
    UPTDropSpec vs := by
  obtain ⟨hainv, hcur, hend, hent, hdist⟩ := vmreach_inv vs h
  have hnodup : ∀ i, i < 2 → ((tableDeallocs vs.upt i).map Prod.fst).Nodup := by
    intro i hi
    rw [tableDeallocs_map_fst]
    apply nodup_filterMap_of_pairwise
    rw [List.pairwise_iff_getElem]
    intro a b ha hb hab
    rw [List.length_range] at ha hb
    intro c hc1 hc2
    rw [List.getElem_range] at hc1 hc2
    by_cases hva : entryValid (vs.upt.l3 i a) = true
    · by_cases hvb : entryValid (vs.upt.l3 i b) = true
      · rw [if_pos hva] at hc1
        rw [if_pos hvb] at hc2
        have hca : c = entryAddr (vs.upt.l3 i a) := by simpa [eq_comm] using hc1
        have hcb : c = entryAddr (vs.upt.l3 i b) := by simpa [eq_comm] using hc2
        have := hdist i a i b hi ha hi hb hva hvb (by
          intro he
          injection he with he1 he2
          omega)
        rw [← hca, ← hcb] at this
        exact this rfl
      · rw [if_neg hvb] at hc2
        simp at hc2
    · rw [if_neg hva] at hc1
      simp at hc1
  refine ⟨?_, ?_, ?_⟩
  · unfold dropDeallocs
    rw [List.map_append, List.nodup_append]
    refine ⟨hnodup 0 (by norm_num), hnodup 1 (by norm_num), ?_⟩
    intro c hc0 hc1
    obtain ⟨j0, hj0, hv0, he0⟩ := (mem_tableDeallocs_fst vs.upt 0 c).mp hc0
    obtain ⟨j1, hj1, hv1, he1⟩ := (mem_tableDeallocs_fst vs.upt 1 c).mp hc1
    have := hdist 0 j0 1 j1 (by norm_num) hj0 (by norm_num) hj1 hv0 hv1 (by
      intro he
      injection he with he1 he2
      omega)
    rw [← he0, ← he1] at this
    exact this rfl
  · intro x
    unfold dropDeallocs
    rw [List.mem_append, mem_tableDeallocs, mem_tableDeallocs]
    constructor
    · rintro (⟨j, hj, hv, hx⟩ | ⟨j, hj, hv, hx⟩)
      · exact ⟨0, j, by norm_num, hj, hv, hx⟩
      · exact ⟨1, j, by norm_num, hj, hv, hx⟩
    · rintro ⟨i, j, hi, hj, hv, hx⟩
      rcases (by omega : i = 0 ∨ i = 1) with h0 | h1
      · subst h0
        exact Or.inl ⟨j, hj, hv, hx⟩
      · subst h1
        exact Or.inr ⟨j, hj, hv, hx⟩
  · intro x hx
    unfold dropDeallocs at hx
    rw [List.mem_append, mem_tableDeallocs, mem_tableDeallocs] at hx
    rcases hx with ⟨j, hj, hv, hxe⟩ | ⟨j, hj, hv, hxe⟩
    · obtain ⟨hm1, hm2, _⟩ := hent 0 j (by norm_num) hj hv
      subst hxe
      exact ⟨hm1, hm2, rfl⟩
    · obtain ⟨hm1, hm2, _⟩ := hent 1 j (by norm_num) hj hv
      subst hxe
      exact ⟨hm1, hm2, rfl⟩

/-- Witness for C5 at a concrete reachable state (fresh page table over the
sample heap). -/
theorem upt_drop_exactly_valid_pages_witness :
    VMReach vmSample ∧ UPTDropSpec vmSample := by
  have hreach : VMReach vmSample := by
    apply VMReach.init
    · constructor
      · intro p hp
        simp [binBlocks, vmSample] at hp
      · have : ([] : List (Nat × Nat)) ++
            binBlocks (⟨fun _ => [], 65536, 2 ^ 32⟩ : Allocator) = [] := by
          simp [binBlocks]
        rw [this]
        exact List.Pairwise.nil
    · norm_num [vmSample]
    · norm_num [vmSample]
  exact ⟨hreach, upt_drop_exactly_valid_pages vmSample hreach⟩

/-! ## Claim C10: UserPageTable::alloc ignores its perm argument -/

/-- Claim C10: `UserPageTable::alloc` never reads `perm`: two calls
differing only in the permission argument produce identical results, and on
success the written L3 descriptor is always VALID with page type, AF set,
AP = USER_RW, ATTR = Normal and SH = Inner — every user mapping, image and
stack alike, carries the same user-read-write permission. -/
theorem upt_alloc_ignores_perm (vs : VMState) (va : Nat) (p1 p2 : PagePerm)
    (vs2 : VMState) (i j : Nat)
    (hsucc : uptAlloc vs va p1 = some vs2) (hloc : locate va = some (i, j)) :
    uptAlloc vs va p1 = uptAlloc vs va p2 ∧
    entryValid (vs2.upt.l3 i j) = true ∧
    getBits (vs2.upt.l3 i j) 1 1 = 1 ∧
    getBits (vs2.upt.l3 i j) 10 1 = 1 ∧
    getBits (vs2.upt.l3 i j) 6 2 = USER_RW ∧
    getBits (vs2.upt.l3 i j) 2 3 = ATTR_NORMAL ∧
    getBits (vs2.upt.l3 i j) 8 2 = SH_INNER := by
  obtain ⟨i0, j0, ptr, heap2, hge, hloc0, hnv, halloc, hptr, hvs2⟩ :=
    uptAlloc_some_inv vs va p1 vs2 hsucc
  rw [hloc0] at hloc
  injection hloc with hloc
  injection hloc with hi hj
  subst hi
  subst hj
  subst hvs2
  have hfields := mkUserL3Entry_fields ptr
  refine ⟨rfl, ?_, ?_, ?_, ?_, ?_, ?_⟩ <;>
    · dsimp only
      rw [if_pos ⟨rfl, rfl⟩]
      first
      | exact mkUserL3Entry_valid ptr
      | exact hfields.2.1
      | exact hfields.2.2.1
      | exact hfields.2.2.2.1
      | exact hfields.2.2.2.2.1
      | exact hfields.2.2.2.2.2

/-- Witness for C10: mapping the first user page of a fresh table with RW
versus RWX. -/
theorem upt_alloc_ignores_perm_witness :
    uptAlloc vmSample USER_IMG_BASE PagePerm.RW = some vmSampleAfter ∧
    locate USER_IMG_BASE = some (0, 0) ∧
    (uptAlloc vmSample USER_IMG_BASE PagePerm.RW =
      uptAlloc vmSample USER_IMG_BASE PagePerm.RWX) ∧
    entryValid (vmSampleAfter.upt.l3 0 0) = true ∧
    getBits (vmSampleAfter.upt.l3 0 0) 1 1 = 1 ∧
    getBits (vmSampleAfter.upt.l3 0 0) 10 1 = 1 ∧
    getBits (vmSampleAfter.upt.l3 0 0) 6 2 = USER_RW ∧
    getBits (vmSampleAfter.upt.l3 0 0) 2 3 = ATTR_NORMAL ∧
    getBits (vmSampleAfter.upt.l3 0 0) 8 2 = SH_INNER := by
  have hloc : locate USER_IMG_BASE = some (0, 0) := rfl
  have hscan : scanBin PAGE_SIZE
      (vmSample.heap.bins (map_to_bin (max PAGE_SIZE PAGE_SIZE))) = none := rfl
  have hpow : power_of_two PAGE_SIZE = true := by decide
  have hlt : map_to_bin (max PAGE_SIZE PAGE_SIZE) < MAX_BINS := by
    rw [map_to_bin_page]
    norm_num [MAX_BINS]
  have hfit : ¬ vmSample.heap.end_ <
      align_up vmSample.heap.current PAGE_SIZE +
        size_for_bin (map_to_bin (max PAGE_SIZE PAGE_SIZE)) := by
    rw [map_to_bin_page]
    norm_num [vmSample, align_up, size_for_bin, PAGE_SIZE]
  have halloc0 := alloc_of_scan_none_fit vmSample.heap PAGE_SIZE PAGE_SIZE
    hpow hlt hscan hfit
  have hau : align_up vmSample.heap.current PAGE_SIZE = 65536 := by
    norm_num [vmSample, align_up, PAGE_SIZE]
  have hsz13 : size_for_bin (map_to_bin (max PAGE_SIZE PAGE_SIZE)) = 65536 := by
    rw [map_to_bin_page]
    norm_num [size_for_bin]
  have halloc : vmSample.heap.alloc PAGE_SIZE PAGE_SIZE =
      some (some 65536, (⟨fun _ => [], 131072, 2 ^ 32⟩ : Allocator)) := by
    rw [halloc0, hau, hsz13]
    rfl
  have hsucc := uptAlloc_eq vmSample USER_IMG_BASE PagePerm.RW 0 0 65536
    (⟨fun _ => [], 131072, 2 ^ 32⟩ : Allocator) (by simp) hloc rfl halloc
    (by norm_num)
  have hmain := upt_alloc_ignores_perm vmSample USER_IMG_BASE PagePerm.RW
    PagePerm.RWX vmSampleAfter 0 0 (by exact hsucc) hloc
  exact ⟨by exact hsucc, hloc, hmain.1, hmain.2.1, hmain.2.2.1, hmain.2.2.2.1,
    hmain.2.2.2.2.1, hmain.2.2.2.2.2.1, hmain.2.2.2.2.2.2⟩

end Kern
